import Mathlib

/-!
Verification development for the tar storefront repository.

Shallow embedding of:
* the R2 object-storage helpers (`src/src/lib/r2-config.ts`,
  `src/src/lib/r2-service.ts`),
* the store-scoped queries (`src/src/hooks/useFiles.ts`,
  `src/src/components/square-pos.tsx`),
* the form validation service (`ValidationService`),
* the block-based storefront renderer, code validator, sandbox executor and
  page cache, which exist in the repository only as a design document and are
  therefore modelled from the specification.

JavaScript strings that need character-level reasoning are modelled as
`List Char`; elsewhere `String` is used directly.  Calls into external
services (the S3/R2 client, the presigner) are modelled by passing the
externally determined outcome of the call as an explicit argument.
-/

namespace Tar

/-! ### URL model (WHATWG `new URL`, as far as this code base exercises it)

`extractKeyFromUrl` relies on the runtime URL parser.  The parser is modelled
for hierarchical `scheme://host/path` URLs: an alphabetic scheme, the literal
`://`, an authority ended by `/`, `?` or `#`, and a pathname running up to the
query or fragment.  Percent-encoding and dot-segment normalization are not
applied by the model; the theorems that use it restrict their inputs to keys
on which the real parser performs neither. -/

/-- After the scheme's `:` there must be the literal `//`. -/
def dropSlashes : List Char → Option (List Char)
  | '/' :: '/' :: rest => some rest
  | _ => none

/-- Scheme scanner: consumes the remaining alphabetic scheme characters and
the literal `://`, returning the rest of the URL; any other shape fails. -/
def urlAfterScheme : List Char → Option (List Char)
  | [] => none
  | c :: cs =>
    if c = ':' then dropSlashes cs
    else if c.isAlpha then urlAfterScheme cs else none

/-- Model of the URL parser's scheme step: the first character must be a
letter, then the rest of the scheme and `://` are consumed. -/
def urlSchemeRest (s : List Char) : Option (List Char) :=
  match s with
  | [] => none
  | c :: cs => if c.isAlpha then urlAfterScheme cs else none

/-- Characters that end the authority (host and optional port) of a URL. -/
def authEnd (c : Char) : Bool := c = '/' || c = '?' || c = '#'

/-- Model of `URL.pathname` for an http(s)-style URL: the section after the
authority up to the query or fragment; an empty path reads as `/`. -/
def urlPathname (s : List Char) : Option (List Char) :=
  (urlSchemeRest s).map (fun rest =>
    match rest.dropWhile (fun c => !(authEnd c)) with
    | '/' :: p => '/' :: p.takeWhile (fun c => c ≠ '?' && c ≠ '#')
    | _ => ['/'])

/-- Embeds `getPublicUrl` from `src/src/lib/r2-config.ts`: the public URL is
the configured endpoint, a slash, and the object key. -/
def getPublicUrl (endpoint key : List Char) : List Char :=
  endpoint ++ '/' :: key

/-- Embeds `R2Service.extractKeyFromUrl` from `src/src/lib/r2-service.ts`:
parse the URL and return its pathname without the leading slash; `null` when
URL parsing throws. -/
def extractKeyFromUrl (url : List Char) : Option (List Char) :=
  (urlPathname url).map (fun p => p.drop 1)

/-- A character the URL parser copies into the pathname unchanged: it is not
percent-encoded and does not delimit the authority, query or fragment. -/
def urlPlainChar (c : Char) : Bool :=
  c.isAlphanum || c = '-' || c = '_' || c = '.' || c = '/' || c = '~'

/-- No `.` or `..` path segment, so dot-segment normalization does not apply. -/
def noDotSegments (k : List Char) : Bool :=
  (k.splitOn '/').all (fun seg => seg ≠ ['.'] && seg ≠ ['.', '.'])

/-! ### R2 service operations (`src/src/lib/r2-service.ts`)

The S3 client is represented by whether initialization succeeded
(`validateR2Config`) plus the outcome of the one network call each operation
makes, passed in as an `Except` value. -/

/-- Metadata selected by `getFileMetadata` from the head response. -/
structure FileMetadata where
  size : Option Nat
  lastModified : Option Nat
  contentType : Option String
deriving DecidableEq

/-- Fields of the S3 head-object response that `getFileMetadata` reads. -/
structure HeadResponse where
  contentLength : Option Nat
  lastModified : Option Nat
  contentType : Option String
deriving DecidableEq

/-- Embeds `R2Service.deleteFile`: `false` when the client is uninitialized,
`false` when the delete call fails (the error is caught), `true` on success. -/
def deleteFile (clientInitialized : Bool) (send : Except String Unit) : Bool :=
  if clientInitialized then
    match send with
    | Except.ok _ => true
    | Except.error _ => false
  else false

/-- Embeds `R2Service.getFileMetadata`: `null` when the client is
uninitialized or the head call fails, otherwise the selected metadata. -/
def getFileMetadata (clientInitialized : Bool) (send : Except String HeadResponse) :
    Option FileMetadata :=
  if clientInitialized then
    match send with
    | Except.ok r => some ⟨r.contentLength, r.lastModified, r.contentType⟩
    | Except.error _ => none
  else none

/-- Embeds `R2Service.getSignedUrl`: `null` when the client is uninitialized
or signing fails (the error is caught), otherwise the signed URL. -/
def getSignedUrl (clientInitialized : Bool) (sign : Except String String) :
    Option String :=
  if clientInitialized then
    match sign with
    | Except.ok u => some u
    | Except.error _ => none
  else none

/-- Result shape of the upload operations (`UploadResult`). -/
structure UploadResult where
  success : Bool
  url : Option String
  key : Option String
  error : Option String
deriving DecidableEq

/-- Storage events performed by `replaceFile`, in execution order. -/
inductive R2Event
  | uploadOk (key : String)
  | uploadFailed
  | deleted (key : String)
deriving DecidableEq

/-- Outcome of `uploadFileWithStructuredPath`, determined by the external
store: a successful upload under a fresh structured key, or a failure (a
failed result or a thrown error, both of which the source turns into a failed
`UploadResult`). -/
inductive UploadOutcome
  | ok (newKey : String)
  | err (msg : String)
deriving DecidableEq

/-- Embeds `R2Service.replaceFile`: upload the new file first; only when the
upload result is successful delete the old key; on failure return the failed
result with the old object untouched.  Returns the result together with the
ordered list of storage events performed (the success url is the public URL
of the new key, as built by `getPublicUrl`). -/
def replaceFile (oldKey : String) (endpoint : String) (outcome : UploadOutcome) :
    UploadResult × List R2Event :=
  match outcome with
  | UploadOutcome.ok newKey =>
      (⟨true, some (endpoint ++ "/" ++ newKey), some newKey, none⟩,
        [R2Event.uploadOk newKey, R2Event.deleted oldKey])
  | UploadOutcome.err m =>
      (⟨false, none, none, some m⟩, [R2Event.uploadFailed])

/-- Effect of a list of storage events on the set of stored keys. -/
def runEvents : List R2Event → List String → List String
  | [], store => store
  | R2Event.uploadOk k :: es, store => runEvents es (k :: store)
  | R2Event.uploadFailed :: es, store => runEvents es store
  | R2Event.deleted k :: es, store => runEvents es (store.erase k)

/-! ### Store-scoped queries (`src/src/hooks/useFiles.ts`,
`src/src/components/square-pos.tsx`)

`db.useQuery` with a `where` clause is the external InstantDB service; its
meaning — the rows of the entity satisfying the clause — is embedded as a
filter over the full entity contents. -/

/-- A row of the `files` entity, with the fields `useFiles` reads. -/
structure FileRecord where
  id : String
  storeId : String
  type : String
  reference : Option String
deriving DecidableEq

/-- Options accepted by `useFiles` (`reference`, `type`). -/
structure UseFilesOptions where
  reference : Option String
  type : Option String
deriving DecidableEq

/-- Embeds the store-scoped query of `useFiles`: with a current store the
`files` entity is queried with `where storeId = currentStore.id`; with no
current store the query is empty and yields no files. -/
def useFilesQuery (currentStoreId : Option String) (files : List FileRecord) :
    List FileRecord :=
  match currentStoreId with
  | some sid => files.filter (fun f => f.storeId = sid)
  | none => []

/-- Embeds the `type` option filter of `useFiles`. -/
def matchesTypeOption (t : String) (f : FileRecord) : Bool :=
  if t = "images" then f.type.startsWith "image/" || f.type = "image"
  else if t = "videos" then f.type.startsWith "video/" || f.type = "video"
  else if t = "documents" then
    !(f.type.startsWith "image/") && !(f.type.startsWith "video/") &&
      f.type ≠ "image" && f.type ≠ "video"
  else true

/-- Embeds `useFiles`: the store-scoped query narrowed by the `reference` and
`type` options. -/
def useFiles (currentStoreId : Option String) (files : List FileRecord)
    (options : UseFilesOptions) : List FileRecord :=
  let allFiles := useFilesQuery currentStoreId files
  let byRef :=
    match options.reference with
    | some r => allFiles.filter (fun f => f.reference = some r)
    | none => allFiles
  match options.type with
  | some t => if t = "all" then byRef else byRef.filter (matchesTypeOption t)
  | none => byRef

/-- A row of the `products` entity, with the fields the SquarePOS query uses. -/
structure PosProduct where
  id : String
  storeId : String
  pos : Bool
  title : Option String
  serverCreatedAt : Nat
deriving DecidableEq

/-- Ordering used by the SquarePOS query: `serverCreatedAt` descending. -/
def posOrder (a b : PosProduct) : Prop := b.serverCreatedAt ≤ a.serverCreatedAt

instance : DecidableRel posOrder := fun a b =>
  inferInstanceAs (Decidable (b.serverCreatedAt ≤ a.serverCreatedAt))

/-- Embeds the product query of `SquarePOS`: products with
`storeId = currentStore?.id || ''` and `pos = true`, ordered by
`serverCreatedAt` descending. -/
def squarePosProducts (currentStoreId : Option String)
    (products : List PosProduct) : List PosProduct :=
  let sid := currentStoreId.getD ""
  List.insertionSort posOrder
    (products.filter (fun p => p.storeId = sid && p.pos))

/-! ### Data Access Façade

Modelled from the spec: the façade of §4.3 (`getProducts`, `getCollections`,
`getCart`) exists in the repository only as design prose; per §4.3 every call
is pre-filtered to the requesting storefront's tenant scope, following the
store-scoped query pattern of the real code above. -/

/-- Per-request render context (storefront id plus request classification). -/
structure RenderContext where
  storefrontId : String
  deviceClass : String
  userTypeClass : String
deriving DecidableEq

/-- A product record as seen by the façade, carrying its tenant store id. -/
structure StoreProduct where
  id : String
  storeId : String
  title : String
  price : Nat
deriving DecidableEq

/-- A collection record as seen by the façade. -/
structure StoreCollection where
  id : String
  storeId : String
  name : String
deriving DecidableEq

/-- A cart, owned by one storefront. -/
structure Cart where
  id : String
  storeId : String
  items : List (String × Nat)
deriving DecidableEq

/-- Modelled from the spec: `getProducts(filters)` — the tenant-scope filter
is applied first, then the caller-supplied filters. -/
def getProducts (ctx : RenderContext) (store : List StoreProduct)
    (filters : StoreProduct → Bool) : List StoreProduct :=
  (store.filter (fun p => p.storeId = ctx.storefrontId)).filter filters

/-- Modelled from the spec: `getCollections()`. -/
def getCollections (ctx : RenderContext) (cols : List StoreCollection) :
    List StoreCollection :=
  cols.filter (fun c => c.storeId = ctx.storefrontId)

/-- Modelled from the spec: `getCart()` — the requesting storefront's cart. -/
def getCart (ctx : RenderContext) (carts : List Cart) : Option Cart :=
  (carts.filter (fun c => c.storeId = ctx.storefrontId)).head?

/-! ### Validation service (`ValidationService.validateProduct`)

The source mutates its `data` argument (the `website` normalization), so the
embedding passes state explicitly: it returns the `ValidationResult` together
with the data object as it is left after the call.  JS `Record<string,string>`
objects are modelled as insertion-ordered association lists with
overwrite-on-reassignment. -/

/-- Shape of `ProductValidationData`; JS numbers are modelled as rationals. -/
structure ProductValidationData where
  title : Option String
  price : Option Rat
  cost : Option Rat
  stock : Option Rat
  weight : Option Rat
  email : Option String
  phone : Option String
  website : Option String
  tags : Option (List String)
deriving DecidableEq

/-- Shape of `ValidationResult`: `warnings` is `undefined` when empty. -/
structure ValidationResult where
  isValid : Bool
  errors : List (String × String)
  warnings : Option (List (String × String))
deriving DecidableEq

/-- JS object assignment `m[k] = v`: overwrite in place, else append. -/
def rset (k v : String) (m : List (String × String)) : List (String × String) :=
  if m.any (fun p => p.1 = k) then
    m.map (fun p => if p.1 = k then (k, v) else p)
  else m ++ [(k, v)]

/-- A character removed by the phone cleanup `replace` call. -/
def phoneStrip (c : Char) : Bool :=
  c.isWhitespace || c = '-' || c = '(' || c = ')'

/-- Embeds the regex `[^\s@]+@[^\s@]+\.[^\s@]+` (anchored): one `@`, no
whitespace, and a dot strictly inside the part after the `@`. -/
def isValidEmail (s : String) : Bool :=
  let cs := s.toList
  let A := cs.takeWhile (fun c => c ≠ '@')
  match cs.drop A.length with
  | '@' :: B =>
      !A.isEmpty && A.all (fun c => !c.isWhitespace) &&
        !B.isEmpty && B.all (fun c => !c.isWhitespace && c ≠ '@') &&
        ((B.drop 1).dropLast.contains '.')
  | _ => false

/-- Embeds `isValidPhone`: strip whitespace, dashes and parentheses, then the
regex `[\+]?[1-9][\d]\x7b0,15\x7d` (anchored). -/
def isValidPhone (s : String) : Bool :=
  let cleaned := s.toList.filter (fun c => !phoneStrip c)
  let core := if cleaned.head? = some '+' then cleaned.drop 1 else cleaned
  match core with
  | [] => false
  | c :: ds => ('1' ≤ c && c ≤ '9') && ds.all Char.isDigit && ds.length ≤ 15

/-- Embeds `isValidUrl`, i.e. `new URL(url)` succeeding, for the hierarchical
`scheme://host` shapes this code produces: a scheme and a nonempty host. -/
def isValidUrl (s : String) : Bool :=
  match urlSchemeRest s.toList with
  | some rest => !((rest.takeWhile (fun c => !(authEnd c))).isEmpty)
  | none => false

/-- JS `String.startsWith`, modelled on the character list. -/
def jsStartsWith (s pre : String) : Bool :=
  pre.toList.isPrefixOf s.toList

/-- The in-place website normalization: when the website lacks an `http://`
or `https://` scheme, `https://` is prepended. -/
def normalizeWebsite (w : String) : String :=
  if !(jsStartsWith w "http://") && !(jsStartsWith w "https://") then
    "https://" ++ w
  else w

/-- Embeds `ValidationService.validateProduct` (`isRequired` defaulting is at
call sites): returns the result and the data object as left by the call — all
fields unchanged except `website`, rewritten when nonempty and schemeless. -/
def validateProduct (data : ProductValidationData) (isRequired : Bool) :
    ValidationResult × ProductValidationData :=
  let errors0 : List (String × String) := []
  let warnings0 : List (String × String) := []
  let errors1 :=
    match data.title with
    | none => if isRequired then rset "title" "Product title is required" errors0 else errors0
    | some t =>
        if isRequired && t.trim = "" then rset "title" "Product title is required" errors0
        else if t ≠ "" && t.length > 255 then
          rset "title" "Product title must be less than 255 characters" errors0
        else if t ≠ "" && t.length < 2 then
          rset "title" "Product title must be at least 2 characters" errors0
        else errors0
  let priceStep :=
    match data.price with
    | none => (errors1, warnings0)
    | some p =>
        if p < 0 then (rset "price" "Price cannot be negative" errors1, warnings0)
        else if p > 999999.99 then
          (rset "price" "Price cannot exceed $999,999.99" errors1, warnings0)
        else if p = 0 then (errors1, rset "price" "Price is set to $0.00" warnings0)
        else (errors1, warnings0)
  let errors2 := priceStep.1
  let warnings1 := priceStep.2
  let errors3 :=
    match data.cost with
    | none => errors2
    | some c =>
        if c < 0 then rset "cost" "Cost cannot be negative" errors2
        else if c > 999999.99 then rset "cost" "Cost cannot exceed $999,999.99" errors2
        else errors2
  let warnings2 :=
    match data.price, data.cost with
    | some p, some c =>
        if p > 0 && c > 0 && c > p then
          rset "cost" "Cost is higher than selling price" warnings1
        else warnings1
    | _, _ => warnings1
  let stockStep :=
    match data.stock with
    | none => (errors3, warnings2)
    | some st =>
        if st < 0 then (rset "stock" "Stock cannot be negative" errors3, warnings2)
        else if st > 999999 then (rset "stock" "Stock cannot exceed 999,999" errors3, warnings2)
        else if st = 0 then (errors3, rset "stock" "Product is out of stock" warnings2)
        else if st ≤ 5 then (errors3, rset "stock" "Low stock level" warnings2)
        else (errors3, warnings2)
  let errors4 := stockStep.1
  let warnings3 := stockStep.2
  let errors5 :=
    match data.weight with
    | none => errors4
    | some w =>
        if w < 0 then rset "weight" "Weight cannot be negative" errors4
        else if w > 99999 then rset "weight" "Weight seems unusually high" errors4
        else errors4
  let errors6 :=
    match data.email with
    | none => errors5
    | some e =>
        if e ≠ "" && !isValidEmail e then
          rset "email" "Please enter a valid email address" errors5
        else errors5
  let errors7 :=
    match data.phone with
    | none => errors6
    | some ph =>
        if ph ≠ "" && !isValidPhone ph then
          rset "phone" "Please enter a valid phone number" errors6
        else errors6
  let website' :=
    match data.website with
    | none => none
    | some w => some (if w ≠ "" then normalizeWebsite w else w)
  let errors8 :=
    match data.website with
    | none => errors7
    | some w =>
        if w ≠ "" && !isValidUrl (normalizeWebsite w) then
          rset "website" "Please enter a valid website URL" errors7
        else errors7
  let errors9 :=
    match data.tags with
    | none => errors8
    | some ts =>
        let e1 := if ts.length > 20 then rset "tags" "Maximum 20 tags allowed" errors8 else errors8
        if (ts.filter (fun t => t.length > 50)).length > 0 then
          rset "tags" "Tags must be less than 50 characters each" e1
        else e1
  let result : ValidationResult :=
    { isValid := errors9.isEmpty
      errors := errors9
      warnings := if warnings3.isEmpty then none else some warnings3 }
  (result, { data with website := website' })

/-! ### Code Validator

Modelled from the spec: the Code Validator of §4.1 and the design document's
"Code Validation" notes (AST parsing for dangerous patterns, no imports,
required function shape) exist only as design prose.  The validator operates
on the parsed syntax tree; parsing itself is abstracted, so a source string
containing a construct is represented by a tree containing that node. -/

/-- Parsed body of a block render function.  Dangerous constructs (dynamic
eval, function construction from strings, imports and requires, host
primitive access) appear as their own node kinds. -/
inductive Expr
  | strLit (s : String)
  | paramRef (name : String)
  | fieldAccess (obj : Expr) (field : String)
  | helperCall (name : String) (arg : Expr)
  | strConcat (a b : Expr)
  | evalCall (arg : Expr)
  | functionCtor (arg : Expr)
  | importStmt (modName : String)
  | hostAccess (name : String)
deriving DecidableEq

/-- The Template Helper namespace (design document `TemplateHelpers`). -/
def helperNames : List String :=
  ["formatPrice", "formatDate", "slugify", "escapeHtml", "generateId"]

/-- A detected security issue, tagged with its rule identifier. -/
structure SecurityIssue where
  rule : String
deriving DecidableEq

/-- A fatal (non-security) validation error. -/
structure CodeError where
  rule : String
deriving DecidableEq

/-- A non-fatal validation warning. -/
structure CodeWarning where
  rule : String
deriving DecidableEq

/-- Result shape `CodeValidationResult` from the design document. -/
structure CodeValidationResult where
  isValid : Bool
  errors : List CodeError
  warnings : List CodeWarning
  securityIssues : List SecurityIssue
deriving DecidableEq

/-- A top-level block render function: declared parameters and body. -/
structure SourceFn where
  params : List String
  body : Expr
deriving DecidableEq

/-- Modelled from the spec: scan of the body for security issues — dynamic
eval, function construction from strings, imports, host primitive access, and
identifiers not reachable from the parameter list or the helper namespace. -/
def securityScan (params : List String) : Expr → List SecurityIssue
  | Expr.strLit _ => []
  | Expr.paramRef n => if n ∈ params then [] else [⟨"unknown-identifier"⟩]
  | Expr.fieldAccess o _ => securityScan params o
  | Expr.helperCall n a =>
      (if n ∈ helperNames then [] else [⟨"unknown-helper"⟩]) ++ securityScan params a
  | Expr.strConcat a b => securityScan params a ++ securityScan params b
  | Expr.evalCall a => ⟨"no-eval"⟩ :: securityScan params a
  | Expr.functionCtor a => ⟨"no-function-constructor"⟩ :: securityScan params a
  | Expr.importStmt _ => [⟨"no-imports"⟩]
  | Expr.hostAccess _ => [⟨"no-host-access"⟩]

/-- Modelled from the spec: `validate(sourceText)` — checks the documented
function shape (a data context parameter and a helper namespace parameter)
and scans the body; shape errors and security issues are fatal. -/
def validate (fn : SourceFn) : CodeValidationResult :=
  let shapeErrors : List CodeError :=
    if fn.params = ["data", "helpers"] then [] else [⟨"function-shape"⟩]
  let issues := securityScan fn.params fn.body
  { isValid := shapeErrors.isEmpty && issues.isEmpty
    errors := shapeErrors
    warnings := []
    securityIssues := issues }

/-- The body contains a dynamic-evaluation construct, a function constructor,
an import/require, or a host primitive access. -/
def containsDangerous : Expr → Bool
  | Expr.strLit _ => false
  | Expr.paramRef _ => false
  | Expr.fieldAccess o _ => containsDangerous o
  | Expr.helperCall _ a => containsDangerous a
  | Expr.strConcat a b => containsDangerous a || containsDangerous b
  | Expr.evalCall _ => true
  | Expr.functionCtor _ => true
  | Expr.importStmt _ => true
  | Expr.hostAccess _ => true

/-- The body uses only string literals, declared parameters, field reads,
whitelisted helper calls and concatenation. -/
def onlyWhitelisted (params : List String) : Expr → Bool
  | Expr.strLit _ => true
  | Expr.paramRef n => decide (n ∈ params)
  | Expr.fieldAccess o _ => onlyWhitelisted params o
  | Expr.helperCall n a => decide (n ∈ helperNames) && onlyWhitelisted params a
  | Expr.strConcat a b => onlyWhitelisted params a && onlyWhitelisted params b
  | _ => false

/-! ### Sandbox Executor

Modelled from the spec: the Sandbox Executor of §4.2 exists only as design
prose (design document interface `VibeCodeSandbox` with `ResourceLimits`).
Following §9, which prescribes a step-budget mechanism for deterministic
limit enforcement, an execution is a sequence of steps that spend wall-clock
budget, allocate memory and emit output chunks; the executor checks every
limit at each step and aborts with a typed failure. -/

/-- Design document `ResourceLimits`: wall-clock budget in milliseconds,
memory budget in bytes, output budget in characters. -/
structure ResourceLimits where
  maxExecutionTime : Nat
  maxMemoryUsage : Nat
  maxStringLength : Nat
deriving DecidableEq

/-- Modelled from the spec: the §4.2 defaults — 1 second, 128 MB, 1 MB. -/
def defaultLimits : ResourceLimits :=
  { maxExecutionTime := 1000
    maxMemoryUsage := 128 * 1024 * 1024
    maxStringLength := 1024 * 1024 }

/-- Kinds of `ExecutionFailure` (§7 taxonomy). -/
inductive FailureKind
  | Timeout
  | MemoryExceeded
  | OutputTooLarge
  | RuntimeError
deriving DecidableEq

/-- A typed execution failure, carrying the failing block's id. -/
structure ExecutionFailure where
  kind : FailureKind
  message : String
  blockId : String
deriving DecidableEq

/-- One observable step of a block function's execution: emit an output
chunk, spend time and memory, or throw a runtime error. -/
inductive VibeStep
  | emit (chunk : String)
  | work (timeMs : Nat) (memBytes : Nat)
  | throwErr (msg : String)
deriving DecidableEq

/-- Accumulated resource usage during one execution. -/
structure ExecSt where
  timeUsed : Nat
  memUsed : Nat
  output : String
deriving DecidableEq

/-- Step interpreter of the executor: every step is followed by a limit
check; exceeding a limit aborts with the corresponding failure kind, a thrown
error aborts with `RuntimeError`. -/
def execSteps (limits : ResourceLimits) (blockId : String) :
    List VibeStep → ExecSt → Except ExecutionFailure ExecSt
  | [], st => Except.ok st
  | VibeStep.work t m :: rest, st =>
      let st' : ExecSt := ⟨st.timeUsed + t, st.memUsed + m, st.output⟩
      if limits.maxExecutionTime < st'.timeUsed then
        Except.error ⟨FailureKind.Timeout, "execution time limit exceeded", blockId⟩
      else if limits.maxMemoryUsage < st'.memUsed then
        Except.error ⟨FailureKind.MemoryExceeded, "memory limit exceeded", blockId⟩
      else execSteps limits blockId rest st'
  | VibeStep.emit s :: rest, st =>
      let st' : ExecSt := ⟨st.timeUsed, st.memUsed, st.output ++ s⟩
      if limits.maxStringLength < st'.output.length then
        Except.error ⟨FailureKind.OutputTooLarge, "output size limit exceeded", blockId⟩
      else execSteps limits blockId rest st'
  | VibeStep.throwErr m :: _, _ =>
      Except.error ⟨FailureKind.RuntimeError, m, blockId⟩

/-- Modelled from the spec: `execute(validatedSource, dataContext, helpers,
limits)` — run the validated block function on the given data context under
the limits; an aborted invocation returns the typed failure and no string. -/
def execute (validatedSource : RenderContext → List VibeStep)
    (ctx : RenderContext) (limits : ResourceLimits) (blockId : String) :
    Except ExecutionFailure String :=
  (execSteps limits blockId (validatedSource ctx) ⟨0, 0, ""⟩).map ExecSt.output

/-- Total wall-clock cost of a run. -/
def totalTime : List VibeStep → Nat
  | [] => 0
  | VibeStep.work t _ :: rest => t + totalTime rest
  | VibeStep.emit _ :: rest => totalTime rest
  | VibeStep.throwErr _ :: rest => totalTime rest

/-- Total memory cost of a run. -/
def totalMem : List VibeStep → Nat
  | [] => 0
  | VibeStep.work _ m :: rest => m + totalMem rest
  | VibeStep.emit _ :: rest => totalMem rest
  | VibeStep.throwErr _ :: rest => totalMem rest

/-- The complete output of a run: the concatenation of every emitted chunk. -/
def fullOutput : List VibeStep → String
  | [] => ""
  | VibeStep.emit s :: rest => s ++ fullOutput rest
  | VibeStep.work _ _ :: rest => fullOutput rest
  | VibeStep.throwErr _ :: rest => fullOutput rest

/-- Whether the run throws a runtime error. -/
def hasThrow : List VibeStep → Bool
  | [] => false
  | VibeStep.throwErr _ :: _ => true
  | VibeStep.emit _ :: rest => hasThrow rest
  | VibeStep.work _ _ :: rest => hasThrow rest

/-! ### Block Renderer and Page Assembler / Cache

Modelled from the spec: §4.4 and §4.5 exist only as design prose; the data
shapes follow the design document (`Block`, the persisted block fields of
§6). -/

/-- Visibility rules of a block. -/
structure Visibility where
  devices : List String
  userTypes : List String
  dateRange : Option (Nat × Nat)
deriving DecidableEq

/-- The design document's `Block` record. -/
structure Block where
  id : String
  type : String
  vibeCode : Option String
  config : List (String × String)
  position : Int
  visibility : Visibility
  codeVersion : Nat
  lastCodeUpdate : Nat
  dependencies : List String
deriving DecidableEq

/-- Modelled from the spec: a block is visible when the request's device
class and user-type class are listed and the request time lies in the
optional date range. -/
def blockVisible (ctx : RenderContext) (now : Nat) (b : Block) : Bool :=
  b.visibility.devices.contains ctx.deviceClass &&
    b.visibility.userTypes.contains ctx.userTypeClass &&
    (match b.visibility.dateRange with
     | none => true
     | some (s, e) => decide (s ≤ now) && decide (now ≤ e))

/-- Render order: ascending `position`, ties broken by block identifier. -/
def blockLE (a b : Block) : Prop :=
  a.position < b.position ∨ (a.position = b.position ∧ a.id ≤ b.id)

instance : DecidableRel blockLE := fun a b =>
  inferInstanceAs (Decidable (a.position < b.position ∨ (a.position = b.position ∧ a.id ≤ b.id)))

instance : IsTotal Block blockLE where
  total a b := by
    rcases lt_trichotomy a.position b.position with h | h | h
    · exact Or.inl (Or.inl h)
    · rcases le_total a.id b.id with h' | h'
      · exact Or.inl (Or.inr ⟨h, h'⟩)
      · exact Or.inr (Or.inr ⟨h.symm, h'⟩)
    · exact Or.inr (Or.inl h)

instance : IsTrans Block blockLE where
  trans a b c hab hbc := by
    rcases hab with h1 | ⟨h1, h1'⟩ <;> rcases hbc with h2 | ⟨h2, h2'⟩
    · exact Or.inl (h1.trans h2)
    · exact Or.inl (h2 ▸ h1)
    · exact Or.inl (h1 ▸ h2)
    · exact Or.inr ⟨h1.trans h2, h1'.trans h2'⟩

/-- The renderer's sort: insertion sort by `(position, id)`. -/
def sortBlocks (blocks : List Block) : List Block :=
  List.insertionSort blockLE blocks

/-- Modelled from the spec: a single block's `ExecutionFailure` is caught and
replaced with the configured fallback fragment; success yields the executor's
string unchanged. -/
def renderBlock (exec : Block → Except ExecutionFailure String)
    (fallback : String) (b : Block) : String :=
  match exec b with
  | Except.ok s => s
  | Except.error _ => fallback

/-- A successfully assembled page. -/
structure RenderedPage where
  html : String
  success : Bool
deriving DecidableEq

/-- Modelled from the spec (§4.4): filter by visibility, sort ascending by
`(position, id)`, render every block in isolation, concatenate the fragments;
a block failure never aborts the page. -/
def renderPage (blocks : List Block) (ctx : RenderContext) (now : Nat)
    (exec : Block → Except ExecutionFailure String) (fallback : String) :
    RenderedPage :=
  let visible := blocks.filter (blockVisible ctx now)
  let sorted := sortBlocks visible
  { html := String.join (sorted.map (renderBlock exec fallback))
    success := true }

/-- The cache key of §4.5. -/
structure CacheKey where
  storefrontId : String
  pageSlug : String
  deviceClass : String
  userTypeClass : String
  blockCodeVersionsHash : List (String × Nat)
deriving DecidableEq

/-- Modelled from the spec: the version hash is the composite of every
included block's `codeVersion` (paired with its id, in page order). -/
def blockCodeVersionsHash (blocks : List Block) : List (String × Nat) :=
  blocks.map (fun b => (b.id, b.codeVersion))

/-- Modelled from the spec: the cache key
`(storefrontId, pageSlug, deviceClass, userTypeClass, blockCodeVersionsHash)`. -/
def computeCacheKey (storefrontId pageSlug deviceClass userTypeClass : String)
    (blocks : List Block) : CacheKey :=
  ⟨storefrontId, pageSlug, deviceClass, userTypeClass, blockCodeVersionsHash blocks⟩

/-- Modelled from the spec: saving new source text for the block with the
given id bumps that block's `codeVersion` by one and records the update time
(the single mutation entry point of §9). -/
def bumpCodeVersion (blockId : String) (newSource : String) (now : Nat)
    (blocks : List Block) : List Block :=
  blocks.map (fun b =>
    if b.id = blockId then
      { b with vibeCode := some newSource
               codeVersion := b.codeVersion + 1
               lastCodeUpdate := now }
    else b)

/-- Cache lookup by exact key. -/
def lookupCache : List (CacheKey × RenderedPage) → CacheKey → Option RenderedPage
  | [], _ => none
  | e :: rest, k => if e.1 = k then some e.2 else lookupCache rest k

/-- Modelled from the spec: `getPageOrInvalidate` — on a hit serve the cached
page, on a miss invoke the renderer and store the result under the key.
Returns the served page, whether it was a cache hit, and the updated cache. -/
def getPageOrInvalidate (cache : List (CacheKey × RenderedPage)) (k : CacheKey)
    (render : Unit → RenderedPage) :
    RenderedPage × Bool × List (CacheKey × RenderedPage) :=
  match lookupCache cache k with
  | some pg => (pg, true, cache)
  | none =>
      let pg := render ()
      (pg, false, (k, pg) :: cache)

/-! ### Concrete fixtures used by witnesses and examples -/

/-- Visibility that admits every request (the §6 default). -/
def allVisible : Visibility :=
  ⟨["desktop", "tablet", "mobile"], ["guest", "customer"], none⟩

/-- A minimal vibe-code block at a given position. -/
def exampleBlock (i : String) (p : Int) : Block :=
  ⟨i, "vibe-code", none, [], p, allVisible, 1, 0, []⟩

/-- A desktop guest request for storefront `store1`. -/
def exCtx : RenderContext := ⟨"store1", "desktop", "guest"⟩

/-- An executor whose fragment names the block it rendered. -/
def exExec : Block → Except ExecutionFailure String :=
  fun b => Except.ok ("[" ++ b.id ++ "]")

/-- Product data whose website lacks a scheme. -/
def schemelessWebsiteData : ProductValidationData :=
  ⟨none, none, none, none, none, none, none, some "example.com", none⟩

/-- A block function whose body contains a dynamic-eval construct. -/
def fnEvalBlock : SourceFn :=
  ⟨["data", "helpers"], Expr.evalCall (Expr.strLit "1 + 1")⟩

/-- A block function returning a plain string literal. -/
def fnLiteralBlock : SourceFn :=
  ⟨["data", "helpers"], Expr.strLit "<h1>Welcome</h1>"⟩

/-- A run that burns 2000 ms of wall-clock budget (an endless loop cut off by
the watchdog after the budget is spent). -/
def srcLoop : RenderContext → List VibeStep :=
  fun _ => [VibeStep.work 2000 0]

/-- An executor that succeeds on every block. -/
def execOkW : Block → Except ExecutionFailure String :=
  fun b => if b.id = "b2" then Except.ok "B2" else Except.ok "frag"

/-- The same executor with a runtime fault injected into block `b2`. -/
def execFaultW : Block → Except ExecutionFailure String :=
  fun b =>
    if b.id = "b2" then Except.error ⟨FailureKind.RuntimeError, "boom", "b2"⟩
    else Except.ok "frag"

/-! ## Theorems -/

/-! ### URL round-trip lemmas (C10) -/

theorem urlAfterScheme_append (s rest : List Char) (h : ∀ c ∈ s, c.isAlpha) :
    urlAfterScheme (s ++ ':' :: '/' :: '/' :: rest) = some rest := by
  induction s with
  | nil => simp [urlAfterScheme, dropSlashes]
  | cons c cs ih =>
    have hc : c.isAlpha := h c (by simp)
    have hcne : c ≠ ':' := by
      intro e
      rw [e] at hc
      exact absurd hc (by decide)
    rw [List.cons_append, urlAfterScheme, if_neg hcne, if_pos hc]
    exact ih (fun x hx => h x (List.mem_cons_of_mem _ hx))

theorem dropWhile_append_all {p : Char → Bool} (h : ∀ c ∈ host, p c) (l : List Char) :
    (host ++ l).dropWhile p = l.dropWhile p := by
  induction host with
  | nil => rfl
  | cons c cs ih =>
    have hc : p c := h c (by simp)
    rw [List.cons_append, List.dropWhile_cons, if_pos hc]
    exact ih (fun x hx => h x (List.mem_cons_of_mem _ hx))

theorem urlPlainChar_not_delim {c : Char} (h : urlPlainChar c = true) :
    c ≠ '?' ∧ c ≠ '#' := by
  constructor <;> intro e <;> rw [e] at h <;> exact absurd h (by decide)

/-- C10: for every object key whose characters the URL parser preserves
unchanged (no percent-encoding, no query/fragment delimiters, no dot-segment
normalization) and every configured endpoint of the form `scheme://host` with
no path component, `extractKeyFromUrl (getPublicUrl key) = key`: key
extraction is a left inverse of public-URL construction. -/
theorem extractKeyFromUrl_leftInverse (scheme host key : List Char)
    (hs : scheme ≠ []) (hsa : ∀ c ∈ scheme, c.isAlpha)
    (hh : host ≠ []) (hha : ∀ c ∈ host, authEnd c = false)
    (hk : key.all urlPlainChar = true) (hdot : noDotSegments key = true) :
    extractKeyFromUrl (getPublicUrl (scheme ++ ':' :: '/' :: '/' :: host) key)
      = some key := by
  obtain ⟨c, cs, rfl⟩ : ∃ c cs, scheme = c :: cs := by
    cases scheme with
    | nil => exact absurd rfl hs
    | cons c cs => exact ⟨c, cs, rfl⟩
  have hc : c.isAlpha := hsa c (by simp)
  have hurl : getPublicUrl ((c :: cs) ++ ':' :: '/' :: '/' :: host) key
      = c :: (cs ++ ':' :: '/' :: '/' :: (host ++ '/' :: key)) := by
    simp [getPublicUrl]
  rw [hurl]
  have hscheme : urlSchemeRest (c :: (cs ++ ':' :: '/' :: '/' :: (host ++ '/' :: key)))
      = some (host ++ '/' :: key) := by
    rw [urlSchemeRest]
    simp only [hc, if_true]
    exact urlAfterScheme_append cs _ (fun x hx => hsa x (List.mem_cons_of_mem _ hx))
  have hdrop : (host ++ '/' :: key).dropWhile (fun c => !(authEnd c)) = '/' :: key := by
    rw [dropWhile_append_all (fun x hx => by simp [hha x hx])]
    rw [List.dropWhile_cons]
    simp [authEnd]
  have htake : key.takeWhile (fun c => c ≠ '?' && c ≠ '#') = key := by
    rw [List.takeWhile_eq_self_iff]
    intro x hx
    have hp := List.all_eq_true.mp hk x hx
    obtain ⟨h1, h2⟩ := urlPlainChar_not_delim hp
    simp [h1, h2]
  have hpath : urlPathname (c :: (cs ++ ':' :: '/' :: '/' :: (host ++ '/' :: key)))
      = some ('/' :: key) := by
    rw [urlPathname, hscheme, Option.map_some', hdrop]
    simp only [htake]
  rw [extractKeyFromUrl, hpath, Option.map_some']
  rfl

/-- Witness for C10 at a concrete endpoint and key. -/
theorem extractKeyFromUrl_leftInverse_witness :
    extractKeyFromUrl
        (getPublicUrl ("https".toList ++ ':' :: '/' :: '/' :: "bucket.r2.example".toList)
          "media/1730-abc.jpg".toList)
      = some "media/1730-abc.jpg".toList :=
  extractKeyFromUrl_leftInverse "https".toList "bucket.r2.example".toList
    "media/1730-abc.jpg".toList (by decide) (by decide) (by decide) (by decide)
    (by decide) (by decide)

/-! ### R2 operation results (C8) -/

/-- C8 (amended): every consumed object-storage operation reports failure
through its return value — `deleteFile` evaluates to a boolean that is false
when the client is uninitialized or deletion fails and true on success;
`getFileMetadata` evaluates to the selected metadata on success and null
otherwise; `getSignedUrl` evaluates to the signed URL on success and null
when the client is uninitialized or signing fails. -/
theorem r2_operations_report_failure_via_return
    (send : Except String Unit) (sendHead : Except String HeadResponse)
    (sign : Except String String) (e : String) (u : String) (r : HeadResponse) :
    deleteFile false send = false ∧
    deleteFile true (Except.error e) = false ∧
    deleteFile true (Except.ok ()) = true ∧
    getFileMetadata false sendHead = none ∧
    getFileMetadata true (Except.error e) = none ∧
    getFileMetadata true (Except.ok r)
      = some ⟨r.contentLength, r.lastModified, r.contentType⟩ ∧
    getSignedUrl false sign = none ∧
    getSignedUrl true (Except.error e) = none ∧
    getSignedUrl true (Except.ok u) = some u := by
  refine ⟨rfl, rfl, rfl, rfl, rfl, rfl, rfl, rfl, rfl⟩

/-- C8 counterexample: with an uninitialized client, `getSignedUrl` evaluates
to null, not to a URL, refuting the claim as stated. -/
theorem getSignedUrl_null_counterexample :
    getSignedUrl false (Except.ok "https://signed.example/media/k") = none := rfl

/-! ### replaceFile ordering (C9) -/

/-- C9: `replaceFile` deletes the old key only after a successful upload — on
a failed or thrown upload the result is failed, no delete event occurs and
the stored keys are unchanged; on a successful upload the delete of the old
key happens strictly after the upload event. -/
theorem replaceFile_deletes_only_after_upload
    (oldKey endpoint msg newKey : String) (store : List String) :
    (replaceFile oldKey endpoint (UploadOutcome.err msg)).1.success = false ∧
    (replaceFile oldKey endpoint (UploadOutcome.err msg)).2 = [R2Event.uploadFailed] ∧
    runEvents (replaceFile oldKey endpoint (UploadOutcome.err msg)).2 store = store ∧
    (replaceFile oldKey endpoint (UploadOutcome.ok newKey)).2
      = [R2Event.uploadOk newKey, R2Event.deleted oldKey] ∧
    (replaceFile oldKey endpoint (UploadOutcome.ok newKey)).1.success = true := by
  refine ⟨rfl, rfl, rfl, rfl, rfl⟩

/-! ### Tenant scoping (C1) -/

theorem mem_useFiles_mem_query {c : Option String} {files : List FileRecord}
    {o : UseFilesOptions} {f : FileRecord} (h : f ∈ useFiles c files o) :
    f ∈ useFilesQuery c files := by
  obtain ⟨r, t⟩ := o
  simp only [useFiles] at h
  cases r with
  | none =>
    cases t with
    | none => dsimp only at h; exact h
    | some tv =>
      dsimp only at h
      by_cases htv : tv = "all"
      · rw [if_pos htv] at h; exact h
      · rw [if_neg htv] at h
        exact (List.mem_filter.mp h).1
  | some rv =>
    cases t with
    | none => dsimp only at h; exact (List.mem_filter.mp h).1
    | some tv =>
      dsimp only at h
      by_cases htv : tv = "all"
      · rw [if_pos htv] at h
        exact (List.mem_filter.mp h).1
      · rw [if_neg htv] at h
        exact (List.mem_filter.mp (List.mem_filter.mp h).1).1

/-- C1: every record returned by a Data Access Façade call (`getProducts`,
`getCollections`, `getCart`) and by the store-scoped file/product queries
backing them carries the tenant/store identifier of the requesting
storefront. -/
theorem facade_calls_tenant_scoped (ctx : RenderContext)
    (store : List StoreProduct) (filters : StoreProduct → Bool)
    (cols : List StoreCollection) (carts : List Cart)
    (sid : String) (files : List FileRecord) (opts : UseFilesOptions)
    (csid : Option String) (prods : List PosProduct) :
    (∀ p ∈ getProducts ctx store filters, p.storeId = ctx.storefrontId) ∧
    (∀ c ∈ getCollections ctx cols, c.storeId = ctx.storefrontId) ∧
    (∀ cart, getCart ctx carts = some cart → cart.storeId = ctx.storefrontId) ∧
    (∀ f ∈ useFiles (some sid) files opts, f.storeId = sid) ∧
    useFiles none files opts = [] ∧
    (∀ p ∈ squarePosProducts csid prods, p.storeId = csid.getD "") := by
  refine ⟨?_, ?_, ?_, ?_, ?_, ?_⟩
  · intro p hp
    have h1 := (List.mem_filter.mp hp).1
    exact of_decide_eq_true (List.mem_filter.mp h1).2
  · intro c hc
    exact of_decide_eq_true (List.mem_filter.mp hc).2
  · intro cart hcart
    have hmem : cart ∈ carts.filter (fun c => decide (c.storeId = ctx.storefrontId)) := by
      rw [getCart] at hcart
      exact List.mem_of_mem_head? (Option.mem_def.mpr hcart)
    exact of_decide_eq_true (List.mem_filter.mp hmem).2
  · intro f hf
    have hq := mem_useFiles_mem_query hf
    simp only [useFilesQuery] at hq
    exact of_decide_eq_true (List.mem_filter.mp hq).2
  · obtain ⟨r, t⟩ := opts
    simp only [useFiles, useFilesQuery]
    cases r <;> cases t <;> simp
  · intro p hp
    have hmem : p ∈ prods.filter (fun q => decide (q.storeId = csid.getD "") && q.pos) := by
      have hperm := List.perm_insertionSort posOrder
        (prods.filter (fun q => decide (q.storeId = csid.getD "") && q.pos))
      exact hperm.mem_iff.mp hp
    have hpred := (List.mem_filter.mp hmem).2
    simp only [Bool.and_eq_true, decide_eq_true_eq] at hpred
    exact hpred.1

/-- Witness for C1: a concrete product of the requesting store is returned
and carries that store's id. -/
theorem facade_calls_tenant_scoped_witness :
    (⟨"p1", "s1", "Shirt", 5⟩ : StoreProduct)
        ∈ getProducts ⟨"s1", "desktop", "guest"⟩
          [⟨"p1", "s1", "Shirt", 5⟩, ⟨"p2", "s2", "Hat", 3⟩] (fun _ => true) ∧
    (⟨"p1", "s1", "Shirt", 5⟩ : StoreProduct).storeId
      = (⟨"s1", "desktop", "guest"⟩ : RenderContext).storefrontId :=
  ⟨by decide,
    (facade_calls_tenant_scoped ⟨"s1", "desktop", "guest"⟩
        [⟨"p1", "s1", "Shirt", 5⟩, ⟨"p2", "s2", "Hat", 3⟩] (fun _ => true)
        [] [] "s1" [] ⟨none, none⟩ none []).1
      ⟨"p1", "s1", "Shirt", 5⟩ (by decide)⟩

/-! ### Validation service purity (C5) -/

/-- C5 (amended): `validateProduct` is a deterministic function of its input
value, but it does not leave its input unmodified — the returned data object
equals the input except for `website`, which is rewritten in place to have
`https://` prepended whenever it is nonempty and lacks an `http://` or
`https://` scheme; every other field is unchanged. -/
theorem validateProduct_deterministic_but_mutates_website
    (d : ProductValidationData) (isRequired : Bool) :
    validateProduct d isRequired = validateProduct d isRequired ∧
    (validateProduct d isRequired).2
      = { d with website := d.website.map (fun w => if w ≠ "" then normalizeWebsite w else w) } := by
  refine ⟨rfl, ?_⟩
  cases hw : d.website with
  | none => simp [validateProduct, hw]
  | some w => simp [validateProduct, hw]

/-- C5 counterexample: on a data object whose website is `example.com`, the
call returns the data with `website` changed to `https://example.com` — the
input object is not left unmodified, refuting the claim as stated. -/
theorem validateProduct_mutates_input_counterexample :
    (validateProduct schemelessWebsiteData false).2 ≠ schemelessWebsiteData ∧
    (validateProduct schemelessWebsiteData false).2.website
      = some "https://example.com" := by
  constructor
  · intro h
    have hw := congrArg ProductValidationData.website h
    rw [show (validateProduct schemelessWebsiteData false).2.website
        = some "https://example.com" from by decide] at hw
    exact absurd hw (by decide)
  · decide

/-! ### Code Validator soundness (C4) -/

theorem securityScan_ne_nil_of_dangerous (params : List String) :
    ∀ e : Expr, containsDangerous e = true → securityScan params e ≠ [] := by
  intro e
  induction e with
  | strLit s => intro h; exact absurd h (by simp [containsDangerous])
  | paramRef n => intro h; exact absurd h (by simp [containsDangerous])
  | fieldAccess o fld ih =>
    intro h
    rw [containsDangerous] at h
    rw [securityScan]
    exact ih h
  | helperCall n a ih =>
    intro h
    rw [containsDangerous] at h
    rw [securityScan]
    intro hnil
    exact ih h (List.append_eq_nil.mp hnil).2
  | strConcat a b iha ihb =>
    intro h
    rw [containsDangerous] at h
    rw [securityScan]
    intro hnil
    rcases Bool.or_eq_true_iff.mp h with ha | hb
    · exact iha ha (List.append_eq_nil.mp hnil).1
    · exact ihb hb (List.append_eq_nil.mp hnil).2
  | evalCall a ih => intro _ hnil; exact List.cons_ne_nil _ _ hnil
  | functionCtor a ih => intro _ hnil; exact List.cons_ne_nil _ _ hnil
  | importStmt m => intro _ hnil; exact List.cons_ne_nil _ _ hnil
  | hostAccess n => intro _ hnil; exact List.cons_ne_nil _ _ hnil

theorem securityScan_nil_of_whitelisted (params : List String) :
    ∀ e : Expr, onlyWhitelisted params e = true → securityScan params e = [] := by
  intro e
  induction e with
  | strLit s => intro _; rfl
  | paramRef n =>
    intro h
    rw [onlyWhitelisted] at h
    rw [securityScan, if_pos (of_decide_eq_true h)]
  | fieldAccess o fld ih =>
    intro h
    rw [onlyWhitelisted] at h
    rw [securityScan]
    exact ih h
  | helperCall n a ih =>
    intro h
    rw [onlyWhitelisted] at h
    obtain ⟨h1, h2⟩ := Bool.and_eq_true_iff.mp h
    rw [securityScan, if_pos (of_decide_eq_true h1), ih h2]
    rfl
  | strConcat a b iha ihb =>
    intro h
    rw [onlyWhitelisted] at h
    obtain ⟨h1, h2⟩ := Bool.and_eq_true_iff.mp h
    rw [securityScan, iha h1, ihb h2]
    rfl
  | evalCall a ih => intro h; exact absurd h (by simp [onlyWhitelisted])
  | functionCtor a ih => intro h; exact absurd h (by simp [onlyWhitelisted])
  | importStmt m => intro h; exact absurd h (by simp [onlyWhitelisted])
  | hostAccess n => intro h; exact absurd h (by simp [onlyWhitelisted])

/-- C4: a source whose body contains a dynamic code-evaluation construct (an
eval call, dynamic function construction from a string, a module import or
require, or access to a process/filesystem/network primitive) is rejected
with `isValid = false` and a security-issue entry; a source with the
documented parameter shape using only whitelisted helpers (in particular one
returning a plain string literal) validates with no errors and no security
issues. -/
theorem validate_rejects_dangerous_accepts_whitelisted (fn : SourceFn) :
    (containsDangerous fn.body = true →
        (validate fn).isValid = false ∧ (validate fn).securityIssues ≠ []) ∧
    (fn.params = ["data", "helpers"] → onlyWhitelisted fn.params fn.body = true →
        (validate fn).isValid = true ∧ (validate fn).securityIssues = [] ∧
          (validate fn).errors = []) := by
  constructor
  · intro h
    have hne := securityScan_ne_nil_of_dangerous fn.params fn.body h
    constructor
    · simp only [validate]
      cases hscan : securityScan fn.params fn.body with
      | nil => exact absurd hscan hne
      | cons x xs => simp
    · simp only [validate]
      exact hne
  · intro hparams hwl
    have hnil := securityScan_nil_of_whitelisted fn.params fn.body hwl
    refine ⟨?_, ?_, ?_⟩
    · have hnil2 : securityScan ["data", "helpers"] fn.body = [] := by
        rw [← hparams]; exact hnil
      simp [validate, hparams, hnil, hnil2]
    · simp only [validate]
      exact hnil
    · simp [validate, hparams]

/-- Witness for C4: an eval-containing function is rejected with a security
issue, and a plain-string-literal function validates. -/
theorem validate_rejects_dangerous_accepts_whitelisted_witness :
    containsDangerous fnEvalBlock.body = true ∧
    (validate fnEvalBlock).isValid = false ∧
    (validate fnEvalBlock).securityIssues ≠ [] ∧
    (validate fnLiteralBlock).isValid = true :=
  ⟨by decide,
    ((validate_rejects_dangerous_accepts_whitelisted fnEvalBlock).1 (by decide)).1,
    ((validate_rejects_dangerous_accepts_whitelisted fnEvalBlock).1 (by decide)).2,
    ((validate_rejects_dangerous_accepts_whitelisted fnLiteralBlock).2 (by decide)
        (by decide)).1⟩

/-! ### Sandbox limit enforcement (C2) -/

theorem execSteps_ok_char (limits : ResourceLimits) (blockId : String) :
    ∀ (steps : List VibeStep) (st st' : ExecSt),
      st.timeUsed ≤ limits.maxExecutionTime →
      st.memUsed ≤ limits.maxMemoryUsage →
      st.output.length ≤ limits.maxStringLength →
      execSteps limits blockId steps st = Except.ok st' →
      st'.timeUsed = st.timeUsed + totalTime steps ∧
      st'.memUsed = st.memUsed + totalMem steps ∧
      st'.output = st.output ++ fullOutput steps ∧
      st'.timeUsed ≤ limits.maxExecutionTime ∧
      st'.memUsed ≤ limits.maxMemoryUsage ∧
      st'.output.length ≤ limits.maxStringLength ∧
      hasThrow steps = false := by
  intro steps
  induction steps with
  | nil =>
    intro st st' ht hm ho hexec
    simp only [execSteps] at hexec
    obtain rfl : st = st' := by injection hexec
    refine ⟨by simp [totalTime], by simp [totalMem],
      by simp [fullOutput, String.append_empty], ht, hm, ho, by simp [hasThrow]⟩
  | cons step rest ih =>
    intro st st' ht hm ho hexec
    cases step with
    | work t m =>
      simp only [execSteps] at hexec
      split at hexec
      · simp at hexec
      · split at hexec
        · simp at hexec
        · rename_i hlt1 hlt2
          have ht' : st.timeUsed + t ≤ limits.maxExecutionTime := Nat.not_lt.mp hlt1
          have hm' : st.memUsed + m ≤ limits.maxMemoryUsage := Nat.not_lt.mp hlt2
          obtain ⟨e1, e2, e3, e4, e5, e6, e7⟩ := ih ⟨st.timeUsed + t, st.memUsed + m, st.output⟩ st' ht' hm' ho hexec
          dsimp only at e1 e2 e3
          simp only [totalTime, totalMem, fullOutput, hasThrow]
          exact ⟨by omega, by omega, e3, e4, e5, e6, e7⟩
    | emit s =>
      simp only [execSteps] at hexec
      split at hexec
      · simp at hexec
      · rename_i hlen
        have ho' : (st.output ++ s).length ≤ limits.maxStringLength := Nat.not_lt.mp hlen
        obtain ⟨e1, e2, e3, e4, e5, e6, e7⟩ := ih ⟨st.timeUsed, st.memUsed, st.output ++ s⟩ st' ht hm ho' hexec
        dsimp only at e1 e2 e3
        simp only [totalTime, totalMem, fullOutput, hasThrow]
        refine ⟨e1, e2, ?_, e4, e5, e6, e7⟩
        rw [e3, String.append_assoc]
    | throwErr msg =>
      simp only [execSteps] at hexec
      simp at hexec

theorem execSteps_err_kind (limits : ResourceLimits) (blockId : String) :
    ∀ (steps : List VibeStep) (st : ExecSt) (f : ExecutionFailure),
      execSteps limits blockId steps st = Except.error f →
      (f.kind = FailureKind.Timeout →
          limits.maxExecutionTime < st.timeUsed + totalTime steps) ∧
      (f.kind = FailureKind.MemoryExceeded →
          limits.maxMemoryUsage < st.memUsed + totalMem steps) ∧
      (f.kind = FailureKind.OutputTooLarge →
          limits.maxStringLength < (st.output ++ fullOutput steps).length) ∧
      (f.kind = FailureKind.RuntimeError → hasThrow steps = true) := by
  intro steps
  induction steps with
  | nil =>
    intro st f hexec
    simp only [execSteps] at hexec
    simp at hexec
  | cons step rest ih =>
    intro st f hexec
    cases step with
    | work t m =>
      simp only [execSteps] at hexec
      split at hexec
      · rename_i hlt
        obtain rfl : f = ⟨FailureKind.Timeout, "execution time limit exceeded", blockId⟩ := by
          injection hexec with h; exact h.symm
        simp only [totalTime, totalMem, fullOutput, hasThrow]
        refine ⟨fun _ => by omega, fun h => by simp at h, fun h => by simp at h, fun h => by simp at h⟩
      · split at hexec
        · rename_i hlt1 hlt2
          obtain rfl : f = ⟨FailureKind.MemoryExceeded, "memory limit exceeded", blockId⟩ := by
            injection hexec with h; exact h.symm
          simp only [totalTime, totalMem, fullOutput, hasThrow]
          refine ⟨fun h => by simp at h, fun _ => by omega, fun h => by simp at h, fun h => by simp at h⟩
        · rename_i hlt1 hlt2
          obtain ⟨e1, e2, e3, e4⟩ := ih ⟨st.timeUsed + t, st.memUsed + m, st.output⟩ f hexec
          simp only [totalTime, totalMem, fullOutput, hasThrow]
          exact ⟨fun h => by have := e1 h; simp at this; omega,
                 fun h => by have := e2 h; simp at this; omega,
                 fun h => e3 h, fun h => e4 h⟩
    | emit s =>
      simp only [execSteps] at hexec
      split at hexec
      · rename_i hlen
        obtain rfl : f = ⟨FailureKind.OutputTooLarge, "output size limit exceeded", blockId⟩ := by
          injection hexec with h; exact h.symm
        simp only [totalTime, totalMem, fullOutput, hasThrow]
        refine ⟨fun h => by simp at h, fun h => by simp at h, fun _ => ?_, fun h => by simp at h⟩
        rw [← String.append_assoc]
        rw [String.length_append]
        have hl : limits.maxStringLength < (st.output ++ s).length := by omega
        omega
      · rename_i hlen
        obtain ⟨e1, e2, e3, e4⟩ := ih ⟨st.timeUsed, st.memUsed, st.output ++ s⟩ f hexec
        simp only [totalTime, totalMem, fullOutput, hasThrow]
        refine ⟨fun h => by have := e1 h; simp at this; omega,
                fun h => by have := e2 h; simp at this; omega,
                fun h => ?_, fun h => e4 h⟩
        have := e3 h
        rw [← String.append_assoc]
        exact this
    | throwErr msg =>
      simp only [execSteps] at hexec
      obtain rfl : f = ⟨FailureKind.RuntimeError, msg, blockId⟩ := by
        injection hexec with h; exact h.symm
      simp only [totalTime, totalMem, fullOutput, hasThrow]
      exact ⟨fun h => by simp at h, fun h => by simp at h, fun h => by simp at h, fun _ => trivial⟩

/-- C2: an execution of a validated block under `limits` that stays within
every limit returns the complete output; exceeding the wall-clock, memory or
output-length limit aborts the invocation with an `ExecutionFailure` of kind
`Timeout`, `MemoryExceeded` or `OutputTooLarge` respectively, and a partial
or truncated HTML string is never returned (every returned string is the full
output of a within-limits run); the defaults are 1 s, 128 MB and 1 MB. -/
theorem sandbox_limit_enforcement (src : RenderContext → List VibeStep)
    (ctx : RenderContext) (limits : ResourceLimits) (blockId : String) :
    (∀ s, execute src ctx limits blockId = Except.ok s →
        s = fullOutput (src ctx) ∧
        totalTime (src ctx) ≤ limits.maxExecutionTime ∧
        totalMem (src ctx) ≤ limits.maxMemoryUsage ∧
        s.length ≤ limits.maxStringLength ∧
        hasThrow (src ctx) = false) ∧
    (∀ f, execute src ctx limits blockId = Except.error f →
        (f.kind = FailureKind.Timeout →
            limits.maxExecutionTime < totalTime (src ctx)) ∧
        (f.kind = FailureKind.MemoryExceeded →
            limits.maxMemoryUsage < totalMem (src ctx)) ∧
        (f.kind = FailureKind.OutputTooLarge →
            limits.maxStringLength < (fullOutput (src ctx)).length) ∧
        (f.kind = FailureKind.RuntimeError → hasThrow (src ctx) = true)) ∧
    (limits.maxExecutionTime < totalTime (src ctx) ∧
        totalMem (src ctx) ≤ limits.maxMemoryUsage ∧
        (fullOutput (src ctx)).length ≤ limits.maxStringLength ∧
        hasThrow (src ctx) = false →
      ∃ f, execute src ctx limits blockId = Except.error f ∧
        f.kind = FailureKind.Timeout) ∧
    (limits.maxMemoryUsage < totalMem (src ctx) ∧
        totalTime (src ctx) ≤ limits.maxExecutionTime ∧
        (fullOutput (src ctx)).length ≤ limits.maxStringLength ∧
        hasThrow (src ctx) = false →
      ∃ f, execute src ctx limits blockId = Except.error f ∧
        f.kind = FailureKind.MemoryExceeded) ∧
    (limits.maxStringLength < (fullOutput (src ctx)).length ∧
        totalTime (src ctx) ≤ limits.maxExecutionTime ∧
        totalMem (src ctx) ≤ limits.maxMemoryUsage ∧
        hasThrow (src ctx) = false →
      ∃ f, execute src ctx limits blockId = Except.error f ∧
        f.kind = FailureKind.OutputTooLarge) ∧
    defaultLimits = ⟨1000, 134217728, 1048576⟩ := by
  have hinit0 : (⟨0, 0, ""⟩ : ExecSt).timeUsed ≤ limits.maxExecutionTime := Nat.zero_le _
  have hinit1 : (⟨0, 0, ""⟩ : ExecSt).memUsed ≤ limits.maxMemoryUsage := Nat.zero_le _
  have hinit2 : (⟨0, 0, ""⟩ : ExecSt).output.length ≤ limits.maxStringLength := Nat.zero_le _
  refine ⟨?_, ?_, ?_, ?_, ?_, rfl⟩
  · intro s hs
    rw [execute] at hs
    cases hres : execSteps limits blockId (src ctx) ⟨0, 0, ""⟩ with
    | ok st' =>
      rw [hres] at hs
      simp only [Except.map] at hs
      obtain rfl : st'.output = s := by injection hs
      obtain ⟨e1, e2, e3, e4, e5, e6, e7⟩ :=
        execSteps_ok_char limits blockId (src ctx) ⟨0, 0, ""⟩ st' hinit0 hinit1 hinit2 hres
      refine ⟨by rw [e3]; simp [String.empty_append], by omega, by omega, e6, e7⟩
    | error f =>
      rw [hres] at hs
      simp [Except.map] at hs
  · intro f hf
    rw [execute] at hf
    cases hres : execSteps limits blockId (src ctx) ⟨0, 0, ""⟩ with
    | ok st' =>
      rw [hres] at hf
      simp [Except.map] at hf
    | error f' =>
      rw [hres] at hf
      simp only [Except.map] at hf
      obtain rfl : f' = f := by injection hf
      obtain ⟨e1, e2, e3, e4⟩ := execSteps_err_kind limits blockId (src ctx) ⟨0, 0, ""⟩ f' hres
      refine ⟨fun h => by have := e1 h; simpa using this,
              fun h => by have := e2 h; simpa using this,
              fun h => by have := e3 h; simpa [String.empty_append] using this,
              e4⟩
  · intro ⟨h1, h2, h3, h4⟩
    cases hres : execSteps limits blockId (src ctx) ⟨0, 0, ""⟩ with
    | ok st' =>
      obtain ⟨e1, e2, e3, e4, e5, e6, e7⟩ :=
        execSteps_ok_char limits blockId (src ctx) ⟨0, 0, ""⟩ st' hinit0 hinit1 hinit2 hres
      exact absurd e4 (by omega)
    | error f =>
      obtain ⟨e1, e2, e3, e4⟩ := execSteps_err_kind limits blockId (src ctx) ⟨0, 0, ""⟩ f hres
      refine ⟨f, by rw [execute, hres]; rfl, ?_⟩
      cases hk : f.kind with
      | Timeout => rfl
      | MemoryExceeded => exact absurd (by simpa using e2 hk) (by omega)
      | OutputTooLarge =>
        exact absurd (by simpa [String.empty_append] using e3 hk) (by omega)
      | RuntimeError => exact absurd (e4 hk) (by simp [h4])
  · intro ⟨h1, h2, h3, h4⟩
    cases hres : execSteps limits blockId (src ctx) ⟨0, 0, ""⟩ with
    | ok st' =>
      obtain ⟨e1, e2, e3, e4, e5, e6, e7⟩ :=
        execSteps_ok_char limits blockId (src ctx) ⟨0, 0, ""⟩ st' hinit0 hinit1 hinit2 hres
      exact absurd e5 (by omega)
    | error f =>
      obtain ⟨e1, e2, e3, e4⟩ := execSteps_err_kind limits blockId (src ctx) ⟨0, 0, ""⟩ f hres
      refine ⟨f, by rw [execute, hres]; rfl, ?_⟩
      cases hk : f.kind with
      | MemoryExceeded => rfl
      | Timeout => exact absurd (by simpa using e1 hk) (by omega)
      | OutputTooLarge =>
        exact absurd (by simpa [String.empty_append] using e3 hk) (by omega)
      | RuntimeError => exact absurd (e4 hk) (by simp [h4])
  · intro ⟨h1, h2, h3, h4⟩
    cases hres : execSteps limits blockId (src ctx) ⟨0, 0, ""⟩ with
    | ok st' =>
      obtain ⟨e1, e2, e3, e4, e5, e6, e7⟩ :=
        execSteps_ok_char limits blockId (src ctx) ⟨0, 0, ""⟩ st' hinit0 hinit1 hinit2 hres
      have : st'.output = fullOutput (src ctx) := by rw [e3]; simp [String.empty_append]
      exact absurd e6 (by rw [this]; omega)
    | error f =>
      obtain ⟨e1, e2, e3, e4⟩ := execSteps_err_kind limits blockId (src ctx) ⟨0, 0, ""⟩ f hres
      refine ⟨f, by rw [execute, hres]; rfl, ?_⟩
      cases hk : f.kind with
      | OutputTooLarge => rfl
      | Timeout => exact absurd (by simpa using e1 hk) (by omega)
      | MemoryExceeded => exact absurd (by simpa using e2 hk) (by omega)
      | RuntimeError => exact absurd (e4 hk) (by simp [h4])

/-- Witness for C2: a run spending 2000 ms against the default 1000 ms budget
aborts with a `Timeout` failure. -/
theorem sandbox_limit_enforcement_witness :
    ∃ f, execute srcLoop exCtx defaultLimits "b1" = Except.error f ∧
      f.kind = FailureKind.Timeout :=
  (sandbox_limit_enforcement srcLoop exCtx defaultLimits "b1").2.2.1
    ⟨by decide, by decide, by decide, by decide⟩

/-! ### Per-block failure isolation (C3) -/

/-- C3: a runtime fault injected into the blocks with identifier `i` never
alters the rendered fragment of any other block, nor the page's overall
success status (always successful once rendering begins); an
`ExecutionFailure` in a block is caught and replaced by the fallback
fragment. -/
theorem block_failure_isolation (blocks : List Block) (ctx : RenderContext)
    (now : Nat) (exec1 exec2 : Block → Except ExecutionFailure String)
    (fallback : String) (i : String)
    (hagree : ∀ b : Block, b.id ≠ i → exec1 b = exec2 b) :
    (∀ b : Block, b.id ≠ i →
        renderBlock exec1 fallback b = renderBlock exec2 fallback b) ∧
    (renderPage blocks ctx now exec1 fallback).success
      = (renderPage blocks ctx now exec2 fallback).success ∧
    (renderPage blocks ctx now exec1 fallback).success = true ∧
    (∀ b f, exec1 b = Except.error f → renderBlock exec1 fallback b = fallback) := by
  refine ⟨?_, rfl, rfl, ?_⟩
  · intro b hb
    rw [renderBlock, renderBlock, hagree b hb]
  · intro b f hf
    rw [renderBlock, hf]

/-- Witness for C3: with a fault injected into block `b2`, block `b1`'s
fragment is unchanged and the page still succeeds. -/
theorem block_failure_isolation_witness :
    (exampleBlock "b1" 1).id ≠ "b2" ∧
    renderBlock execOkW "" (exampleBlock "b1" 1)
      = renderBlock execFaultW "" (exampleBlock "b1" 1) ∧
    (renderPage [exampleBlock "b1" 1, exampleBlock "b2" 2] exCtx 0 execFaultW "").success
      = true :=
  have hagree : ∀ b : Block, b.id ≠ "b2" → execOkW b = execFaultW b := by
    intro b hb
    simp [execOkW, execFaultW, hb]
  ⟨by decide,
    (block_failure_isolation [exampleBlock "b1" 1, exampleBlock "b2" 2] exCtx 0
        execOkW execFaultW "" "b2" hagree).1 (exampleBlock "b1" 1) (by decide),
    ((block_failure_isolation [exampleBlock "b1" 1, exampleBlock "b2" 2] exCtx 0
        execOkW execFaultW "" "b2" hagree).2.1).symm.trans
      ((block_failure_isolation [exampleBlock "b1" 1, exampleBlock "b2" 2] exCtx 0
        execOkW execFaultW "" "b2" hagree).2.2.1)⟩

/-! ### Fragment concatenation order (C6) -/

theorem blockLE_id_eq_of_antisymm {a b : Block}
    (h1 : blockLE a b) (h2 : blockLE b a) : a.id = b.id := by
  rcases h1 with hlt1 | ⟨he1, hle1⟩ <;> rcases h2 with hlt2 | ⟨he2, hle2⟩
  · exact absurd (hlt1.trans hlt2) (lt_irrefl _)
  · rw [he2] at hlt1; exact absurd hlt1 (lt_irrefl _)
  · rw [he1] at hlt2; exact absurd hlt2 (lt_irrefl _)
  · exact le_antisymm hle1 hle2

theorem sorted_unique_of_nodup_ids :
    ∀ (s1 s2 : List Block), s1.Perm s2 →
      List.Pairwise blockLE s1 → List.Pairwise blockLE s2 →
      (s1.map Block.id).Nodup → s1 = s2 := by
  intro s1
  induction s1 with
  | nil =>
    intro s2 hp _ _ _
    exact (hp.symm.eq_nil).symm
  | cons a t1 ih =>
    intro s2 hp hs1 hs2 hnd
    cases s2 with
    | nil => exact absurd hp.eq_nil (by simp)
    | cons b t2 =>
      have hab : a = b := by
        by_contra hne
        have ha2 : a ∈ b :: t2 := hp.mem_iff.mp (List.mem_cons_self a t1)
        have hb1 : b ∈ a :: t1 := hp.mem_iff.mpr (List.mem_cons_self b t2)
        have hat2 : a ∈ t2 := by
          cases List.mem_cons.mp ha2 with
          | inl h => exact absurd h hne
          | inr h => exact h
        have hbt1 : b ∈ t1 := by
          cases List.mem_cons.mp hb1 with
          | inl h => exact absurd h.symm hne
          | inr h => exact h
        have h1 : blockLE a b := (List.pairwise_cons.mp hs1).1 b hbt1
        have h2 : blockLE b a := (List.pairwise_cons.mp hs2).1 a hat2
        have hid : a.id = b.id := blockLE_id_eq_of_antisymm h1 h2
        have hnotin : a.id ∉ t1.map Block.id := (List.nodup_cons.mp hnd).1
        exact hnotin (hid ▸ List.mem_map_of_mem Block.id hbt1)
      subst hab
      have hteq := ih t2 hp.cons_inv (List.pairwise_cons.mp hs1).2
        (List.pairwise_cons.mp hs2).2 (List.nodup_cons.mp hnd).2
      rw [hteq]

theorem sortBlocks_sorted (l : List Block) :
    List.Pairwise blockLE (sortBlocks l) :=
  List.sorted_insertionSort blockLE l

theorem sortBlocks_perm (l : List Block) : (sortBlocks l).Perm l :=
  List.perm_insertionSort blockLE l

theorem sortBlocks_perm_invariant (l1 l2 : List Block) (hp : l1.Perm l2)
    (hnd : (l1.map Block.id).Nodup) : sortBlocks l1 = sortBlocks l2 := by
  refine sorted_unique_of_nodup_ids _ _
    ((sortBlocks_perm l1).trans (hp.trans (sortBlocks_perm l2).symm))
    (sortBlocks_sorted l1) (sortBlocks_sorted l2) ?_
  exact (((sortBlocks_perm l1).map Block.id).nodup_iff).mpr hnd

/-- C6: the assembled HTML body is the concatenation of the non-skipped
blocks' fragments sorted in ascending `(position, id)` order — independent of
the order in which block results arrive (any permutation of the block list
yields the same page when identifiers are distinct); in particular a page
with blocks at positions `[10, 5, 20]` renders its fragments in order
`5, 10, 20`. -/
theorem fragments_concatenated_in_position_order (l l2 : List Block)
    (ctx : RenderContext) (now : Nat)
    (exec : Block → Except ExecutionFailure String) (fallback : String) :
    List.Pairwise blockLE (sortBlocks l) ∧
    (sortBlocks l).Perm l ∧
    (renderPage l ctx now exec fallback).html
      = String.join ((sortBlocks (l.filter (blockVisible ctx now))).map
          (renderBlock exec fallback)) ∧
    (l.Perm l2 → (l.map Block.id).Nodup →
        renderPage l ctx now exec fallback = renderPage l2 ctx now exec fallback) ∧
    (renderPage [exampleBlock "b10" 10, exampleBlock "b5" 5, exampleBlock "b20" 20]
        exCtx 0 exExec "").html = "[b5][b10][b20]" := by
  refine ⟨sortBlocks_sorted l, sortBlocks_perm l, rfl, ?_, by decide⟩
  intro hp hnd
  have hpf : (l.filter (blockVisible ctx now)).Perm (l2.filter (blockVisible ctx now)) :=
    hp.filter (blockVisible ctx now)
  have hndf : ((l.filter (blockVisible ctx now)).map Block.id).Nodup :=
    List.Nodup.sublist (List.Sublist.map Block.id (List.filter_sublist l)) hnd
  rw [renderPage, renderPage, sortBlocks_perm_invariant _ _ hpf hndf]

/-- Witness for C6: the pages built from `[b10, b5, b20]` and from
`[b5, b10, b20]` coincide. -/
theorem fragments_concatenated_in_position_order_witness :
    renderPage [exampleBlock "b10" 10, exampleBlock "b5" 5, exampleBlock "b20" 20]
        exCtx 0 exExec ""
      = renderPage [exampleBlock "b5" 5, exampleBlock "b10" 10, exampleBlock "b20" 20]
        exCtx 0 exExec "" :=
  (fragments_concatenated_in_position_order
      [exampleBlock "b10" 10, exampleBlock "b5" 5, exampleBlock "b20" 20]
      [exampleBlock "b5" 5, exampleBlock "b10" 10, exampleBlock "b20" 20]
      exCtx 0 exExec "").2.2.2.1 (by decide) (by decide)

/-! ### Cache invalidation on code edit (C7) -/

theorem blockCodeVersionsHash_bump_ne (bid newSource : String) (now : Nat) :
    ∀ blocks : List Block, (∃ b ∈ blocks, b.id = bid) →
      blockCodeVersionsHash (bumpCodeVersion bid newSource now blocks)
        ≠ blockCodeVersionsHash blocks := by
  intro blocks
  induction blocks with
  | nil => intro ⟨b, hb, _⟩; exact absurd hb (by simp)
  | cons h t ih =>
    intro ⟨b, hb, hbid⟩ heq
    simp only [blockCodeVersionsHash, bumpCodeVersion, List.map_cons, List.map_map] at heq
    by_cases hid : h.id = bid
    · rw [if_pos hid] at heq
      have hhead := (List.cons_eq_cons.mp heq).1
      have := congrArg Prod.snd hhead
      dsimp only at this
      omega
    · rw [if_neg hid] at heq
      have htail := (List.cons_eq_cons.mp heq).2
      have hbt : b ∈ t := by
        cases List.mem_cons.mp hb with
        | inl he => exact absurd (he ▸ hbid) hid
        | inr ht' => exact ht'
      refine ih ⟨b, hbt, hbid⟩ ?_
      simpa [blockCodeVersionsHash, bumpCodeVersion, List.map_map] using htail

/-- C7: for every page and every included block, bumping that block's
`codeVersion` (as saving new source does) changes the computed cache key —
the version-hash component differs — so the next request under the new key is
a cache miss: lookup fails against the previously cached entry and
`getPageOrInvalidate` re-executes the renderer instead of serving the cached
output. -/
theorem codeVersion_bump_invalidates_cache (sf slug dev ut : String)
    (blocks : List Block) (b : Block) (src : String) (now : Nat)
    (cached : RenderedPage) (render : Unit → RenderedPage)
    (hb : b ∈ blocks) :
    computeCacheKey sf slug dev ut (bumpCodeVersion b.id src now blocks)
      ≠ computeCacheKey sf slug dev ut blocks ∧
    lookupCache [(computeCacheKey sf slug dev ut blocks, cached)]
        (computeCacheKey sf slug dev ut (bumpCodeVersion b.id src now blocks)) = none ∧
    (getPageOrInvalidate [(computeCacheKey sf slug dev ut blocks, cached)]
        (computeCacheKey sf slug dev ut (bumpCodeVersion b.id src now blocks)) render).1
      = render () ∧
    (getPageOrInvalidate [(computeCacheKey sf slug dev ut blocks, cached)]
        (computeCacheKey sf slug dev ut (bumpCodeVersion b.id src now blocks)) render).2.1
      = false := by
  have hhash := blockCodeVersionsHash_bump_ne b.id src now blocks ⟨b, hb, rfl⟩
  have hkey : computeCacheKey sf slug dev ut (bumpCodeVersion b.id src now blocks)
      ≠ computeCacheKey sf slug dev ut blocks := by
    intro h
    exact hhash (congrArg CacheKey.blockCodeVersionsHash h)
  have hlook : lookupCache [(computeCacheKey sf slug dev ut blocks, cached)]
      (computeCacheKey sf slug dev ut (bumpCodeVersion b.id src now blocks)) = none := by
    rw [lookupCache, if_neg (fun h => hkey h.symm)]
    rfl
  refine ⟨hkey, hlook, ?_, ?_⟩
  · rw [getPageOrInvalidate, hlook]
  · rw [getPageOrInvalidate, hlook]

/-- Witness for C7: bumping the one block of a concrete page changes its
cache key and forces a re-render on the next request. -/
theorem codeVersion_bump_invalidates_cache_witness :
    (exampleBlock "b1" 1) ∈ [exampleBlock "b1" 1] ∧
    (getPageOrInvalidate
        [(computeCacheKey "s1" "home" "desktop" "guest" [exampleBlock "b1" 1], ⟨"old", true⟩)]
        (computeCacheKey "s1" "home" "desktop" "guest"
          (bumpCodeVersion (exampleBlock "b1" 1).id "new source" 7 [exampleBlock "b1" 1]))
        (fun _ => ⟨"fresh", true⟩)).1
      = (fun _ : Unit => (⟨"fresh", true⟩ : RenderedPage)) () :=
  ⟨by decide,
    (codeVersion_bump_invalidates_cache "s1" "home" "desktop" "guest"
        [exampleBlock "b1" 1] (exampleBlock "b1" 1) "new source" 7
        ⟨"old", true⟩ (fun _ => ⟨"fresh", true⟩) (by decide)).2.2.1⟩

end Tar
